import Mathlib

/-!
Shallow embedding of the pguia/iam authorization engine: the domain model
(`internal/domain`), the decision cache (`internal/service/cache_service.go`,
`cache_noop.go`), the hierarchical permission evaluator
(`internal/service/permission_evaluator.go`) over abstract repository
contracts (`internal/repository`), and the IAM service facade
(`internal/service/iam_service.go`) over an in-memory model of the
GORM/Postgres store.

Modelling conventions:
* `uuid.UUID` is modelled as `Nat` (`uuid.Nil` is `0`); `uuid.New()` draws a
  fresh value from a per-store counter, and `uuid.New().String()` is modelled
  by `uuidString`, which is injective, so fresh etags differ from all
  previously stored ones.
* Go `string` is Lean `String`; Go string comparison `==` is byte-exact and is
  modelled by `String` equality.
* Go `(T, error)` returns are `Except String T`; a `*T` result that can be
  `nil` without an error (the repositories' "not found") is `Option T`.
* Go `int` (the policy version) is modelled as `Int`.
* `map[string]string` contexts are association lists.
-/

namespace Iam

/-! ## Decision cache as seen by the evaluator

The evaluator only ever stores `true` under a key (`pe.cache.Set(cacheKey,
true)`), and only a cached `bool` is read back, so the cache state visible to
the evaluator is a string-keyed map of booleans.  `cacheSet` prepends, so a
later `Set` shadows an earlier entry, as for a Go map assignment. -/

abbrev CacheMap := List (String × Bool)

def cacheGet (c : CacheMap) (k : String) : Option Bool :=
  c.lookup k

def cacheSet (c : CacheMap) (k : String) (v : Bool) : CacheMap :=
  (k, v) :: c

/-- `GenerateCacheKey` from `cache_service.go`:
`fmt.Sprintf("perm:%s:%s:%s", principal, resourceID, permission)`. -/
def GenerateCacheKey (principal resourceID permission : String) : String :=
  "perm:" ++ principal ++ ":" ++ resourceID ++ ":" ++ permission

/-! ## JSON decoding of a binding's members

`Binding.GetMembers` calls `json.Unmarshal(b.Members, &members)` with
`members : []string`.  The functions below model Go's `encoding/json`
unmarshalling of a byte string into `[]string`: optional whitespace, then
either `null` (which leaves the slice nil without an error) or an array whose
elements are JSON strings (a `null` element leaves the zero value `""`),
then optional trailing whitespace and nothing else.  JSON strings decode the
standard escapes including `\uXXXX` with surrogate-pair combination; a lone
surrogate decodes to U+FFFD as in Go. -/

def isJsonWs (c : Char) : Bool :=
  c = ' ' || c = '\t' || c = '\n' || c = '\r'

def skipWs : List Char → List Char
  | [] => []
  | c :: rest => if isJsonWs c then skipWs rest else c :: rest

def hexVal (c : Char) : Option Nat :=
  if '0' ≤ c ∧ c ≤ '9' then some (c.toNat - '0'.toNat)
  else if 'a' ≤ c ∧ c ≤ 'f' then some (c.toNat - 'a'.toNat + 10)
  else if 'A' ≤ c ∧ c ≤ 'F' then some (c.toNat - 'A'.toNat + 10)
  else none

/-- Read exactly four hex digits (the `XXXX` of a `\uXXXX` escape). -/
def parseU : List Char → Option (Nat × List Char)
  | a :: b :: c :: d :: rest => do
    let x ← hexVal a
    let y ← hexVal b
    let z ← hexVal c
    let w ← hexVal d
    some ((((x * 16 + y) * 16 + z) * 16 + w), rest)
  | _ => none

/-- The Unicode replacement character U+FFFD used for lone surrogates. -/
def replacementChar : Char := Char.ofNat 0xFFFD

def consResult (ch : Char) : Option (List Char × List Char) → Option (List Char × List Char)
  | none => none
  | some (s, r) => some (ch :: s, r)

/-- Decode the body of a JSON string after the opening quote; returns the
decoded characters and the input remaining after the closing quote. -/
def parseStringBody (fuel : Nat) (l : List Char) : Option (List Char × List Char) :=
  match fuel with
  | 0 => none
  | fuel + 1 =>
    match l with
    | [] => none
    | c :: rest =>
      if c = '"' then some ([], rest)
      else if c = '\\' then
        match rest with
        | [] => none
        | e :: rest2 =>
          if e = '"' then consResult '"' (parseStringBody fuel rest2)
          else if e = '\\' then consResult '\\' (parseStringBody fuel rest2)
          else if e = '/' then consResult '/' (parseStringBody fuel rest2)
          else if e = 'b' then consResult (Char.ofNat 8) (parseStringBody fuel rest2)
          else if e = 'f' then consResult (Char.ofNat 12) (parseStringBody fuel rest2)
          else if e = 'n' then consResult '\n' (parseStringBody fuel rest2)
          else if e = 'r' then consResult '\r' (parseStringBody fuel rest2)
          else if e = 't' then consResult '\t' (parseStringBody fuel rest2)
          else if e = 'u' then
            match parseU rest2 with
            | none => none
            | some (n, rest3) =>
              if 0xD800 ≤ n ∧ n < 0xDC00 then
                -- high surrogate: combined with a following low surrogate,
                -- otherwise replaced by U+FFFD without consuming further input
                match rest3 with
                | '\\' :: 'u' :: rest4 =>
                  match parseU rest4 with
                  | some (m, rest5) =>
                    if 0xDC00 ≤ m ∧ m < 0xE000 then
                      consResult (Char.ofNat (0x10000 + (n - 0xD800) * 0x400 + (m - 0xDC00)))
                        (parseStringBody fuel rest5)
                    else consResult replacementChar (parseStringBody fuel rest3)
                  | none => consResult replacementChar (parseStringBody fuel rest3)
                | _ => consResult replacementChar (parseStringBody fuel rest3)
              else if 0xDC00 ≤ n ∧ n < 0xE000 then
                consResult replacementChar (parseStringBody fuel rest3)
              else consResult (Char.ofNat n) (parseStringBody fuel rest3)
          else none
      else if c.toNat < 0x20 then none
      else consResult c (parseStringBody fuel rest)

/-- One array element: a JSON string, or `null` (which leaves the Go string
element at its zero value `""`). -/
def parseElem (fuel : Nat) (l : List Char) : Option (String × List Char) :=
  match skipWs l with
  | '"' :: rest => (parseStringBody fuel rest).map (fun p => (String.mk p.1, p.2))
  | 'n' :: 'u' :: 'l' :: 'l' :: rest => some ("", rest)
  | _ => none

/-- After a complete element: either `]` closes the array or `,` introduces
the next element. -/
def parseArrayTail (fuel : Nat) (l : List Char) : Option (List String × List Char) :=
  match fuel with
  | 0 => none
  | fuel + 1 =>
    match skipWs l with
    | ']' :: rest => some ([], rest)
    | ',' :: rest => do
      let (s, r) ← parseElem fuel rest
      let (ss, r2) ← parseArrayTail fuel r
      some (s :: ss, r2)
    | _ => none

/-- `json.Unmarshal(bytes, &members)` for `members : []string`: `some ms` is a
nil-error decode leaving the slice `ms` (`null` leaves the nil slice, i.e.
`[]`); `none` is an unmarshalling error. -/
def parseMembersList (l : List Char) : Option (List String) :=
  let fuel := l.length + 1
  match skipWs l with
  | 'n' :: 'u' :: 'l' :: 'l' :: rest => if skipWs rest = [] then some [] else none
  | '[' :: rest =>
    match skipWs rest with
    | ']' :: rest2 => if skipWs rest2 = [] then some [] else none
    | _ => do
      let (s, r) ← parseElem fuel rest
      let (ss, r2) ← parseArrayTail fuel r
      if skipWs r2 = [] then some (s :: ss) else none
  | _ => none

/-! ## JSON encoding of a members slice

`json.Marshal(members)` in `IAMService.CreateBinding`. Go escapes `"`, `\`,
control characters, and (HTML-safely) `<`, `>`, `&`, U+2028 and U+2029. -/

def hexDigitChar (n : Nat) : Char :=
  if n < 10 then Char.ofNat (48 + n) else Char.ofNat (87 + n)

def escapeChar (c : Char) : List Char :=
  if c = '"' then ['\\', '"']
  else if c = '\\' then ['\\', '\\']
  else if c = '\n' then ['\\', 'n']
  else if c = '\r' then ['\\', 'r']
  else if c = '\t' then ['\\', 't']
  else if c.toNat < 0x20 then
    ['\\', 'u', '0', '0', hexDigitChar (c.toNat / 16), hexDigitChar (c.toNat % 16)]
  else if c = '<' ∨ c = '>' ∨ c = '&' then
    ['\\', 'u', '0', '0', hexDigitChar (c.toNat / 16), hexDigitChar (c.toNat % 16)]
  else if c.toNat = 0x2028 ∨ c.toNat = 0x2029 then
    ['\\', 'u', '2', '0', '2', hexDigitChar (c.toNat % 16)]
  else [c]

def encodeString (s : String) : String :=
  "\"" ++ String.mk (s.data.flatMap escapeChar) ++ "\""

/-- `json.Marshal` of a `[]string` (the empty and nil slices are not
distinguished by the model; both encode to `[]`). -/
def encodeMembers (members : List String) : String :=
  "[" ++ String.intercalate "," (members.map encodeString) ++ "]"

/-! ## Domain model (`internal/domain`)

Timestamps and the loaded back-references (`Policy.Resource`,
`Binding.Policy`, `Resource.Parent/Children/Policies`) play no role in any
of the modelled operations and are omitted; soft-deleted rows never reach the
evaluator (`deleted_at IS NULL` filtering), so the store holds live rows. -/

structure Permission where
  id : Nat
  name : String
  description : String
  service : String
deriving Repr, DecidableEq

structure Role where
  id : Nat
  name : String
  title : String
  description : String
  permissions : List Permission
  isCustom : Bool
deriving Repr, DecidableEq

/-- `Role.HasPermission`: linear scan comparing `perm.Name == permissionName`. -/
def Role.HasPermission (r : Role) (permissionName : String) : Bool :=
  r.permissions.any (fun perm => perm.name == permissionName)

structure Condition where
  id : Nat
  bindingID : Nat
  title : String
  description : String
  expression : String
deriving Repr, DecidableEq

/-- A binding as loaded by the repositories (`Role`, `Role.Permissions` and
`Condition` preloaded).  `members` holds the raw bytes of the stored JSON
array (`datatypes.JSON`). -/
structure Binding where
  id : Nat
  policyID : Nat
  roleID : Nat
  members : String
  role : Option Role
  condition : Option Condition
deriving Repr, DecidableEq

/-- `Binding.GetMembers`: `json.Unmarshal` of the stored bytes into a
`[]string`; `none` is the error case (which returns a nil slice). -/
def Binding.GetMembers (b : Binding) : Option (List String) :=
  parseMembersList b.members.data

/-- `Binding.HasMember`: `false` on a `GetMembers` error, otherwise a linear
scan comparing `member == principal` byte-exactly. -/
def Binding.HasMember (b : Binding) (principal : String) : Bool :=
  match b.GetMembers with
  | none => false
  | some members => members.any (fun member => member == principal)

/-- A policy as loaded by `PolicyRepository.GetByID`/`GetByResourceID`
(bindings, their roles, the roles' permissions and conditions preloaded). -/
structure Policy where
  id : Nat
  resourceID : Nat
  etag : String
  version : Int
  bindings : List Binding
deriving Repr, DecidableEq

structure Resource where
  id : Nat
  resType : String
  name : String
  parentID : Option Nat
deriving Repr, DecidableEq

/-! ## Permission evaluator (`internal/service/permission_evaluator.go`)

The Go evaluator is constructed over the repository interfaces; `Repos`
models the three contracts it consumes.  A call that can fail is
`Except String _`; a `nil, nil` "not found" result is `Option`. -/

abbrev Ctx := List (String × String)

structure CheckResult where
  allowed : Bool
  reason : String
  err : Option String
deriving Repr, DecidableEq

structure Repos where
  resourceGetByID : Nat → Except String (Option Resource)
  resourceGetAncestors : Nat → Except String (List Resource)
  policyGetByResourceID : Nat → Except String (Option Policy)

/-- `permissionEvaluator.evaluateCondition`: the stub hook returns `true` for
every expression and every context (`nil`/empty-expression short-circuit,
then the `TODO: Implement CEL integration` branch also returns `true`). -/
def evaluateCondition (condition : Option Condition) (context : Ctx) : Bool :=
  match condition with
  | none => true
  | some cond => if cond.expression == "" then true else true

def grantReason (roleName : String) (resourceID : Nat) : String :=
  "Permission granted via role \x27" ++ roleName ++ "\x27 on resource \x27" ++
    toString resourceID ++ "\x27"

/-- The binding loop of `checkResourcePermission`: skip a binding whose
members do not contain the principal, skip when an attached condition
evaluates to false, and grant when the binding's role has the permission. -/
def checkBindings (principal permission : String) (context : Ctx) (resourceID : Nat) :
    List Binding → CheckResult
  | [] => { allowed := false, reason := "No matching binding found", err := none }
  | binding :: rest =>
    if ¬ binding.HasMember principal then
      checkBindings principal permission context resourceID rest
    else if binding.condition.isSome ∧ ¬ evaluateCondition binding.condition context then
      checkBindings principal permission context resourceID rest
    else
      match binding.role with
      | some role =>
        if role.HasPermission permission then
          { allowed := true, reason := grantReason role.name resourceID, err := none }
        else checkBindings principal permission context resourceID rest
      | none => checkBindings principal permission context resourceID rest

/-- `permissionEvaluator.checkResourcePermission` (single resource, no
hierarchy). -/
def checkResourcePermission (repos : Repos) (principal : String) (resourceID : Nat)
    (permission : String) (context : Ctx) : CheckResult :=
  match repos.policyGetByResourceID resourceID with
  | .error e => { allowed := false, reason := "Error fetching policy", err := some e }
  | .ok none => { allowed := false, reason := "No policy found for resource", err := none }
  | .ok (some policy) => checkBindings principal permission context resourceID policy.bindings

/-- The per-resource loop of `CheckPermission` over the evaluation chain: an
error aborts, a grant writes `true` to the cache and returns, otherwise the
walk continues. -/
def checkChain (repos : Repos) (principal permission : String) (context : Ctx)
    (cacheKey : String) (cache : CacheMap) : List Nat → CheckResult × CacheMap
  | [] =>
    ({ allowed := false, reason := "Permission denied: no matching policy found",
       err := none }, cache)
  | resID :: rest =>
    let r := checkResourcePermission repos principal resID permission context
    match r.err with
    | some e => ({ allowed := false, reason := r.reason, err := some e }, cache)
    | none =>
      if r.allowed then
        ({ allowed := true, reason := r.reason, err := none }, cacheSet cache cacheKey true)
      else checkChain repos principal permission context cacheKey cache rest

/-- `permissionEvaluator.CheckPermission`: cache probe (only a cached `true`
returns early), resource resolution, ancestor chain construction, then the
hierarchical walk.  Returns the decision together with the cache state after
the call. -/
def CheckPermission (repos : Repos) (cache : CacheMap) (principal : String)
    (resourceID : Nat) (permission : String) (context : Ctx) : CheckResult × CacheMap :=
  let cacheKey := GenerateCacheKey principal (toString resourceID) permission
  match cacheGet cache cacheKey with
  | some true =>
    ({ allowed := true, reason := "Permission granted (cached)", err := none }, cache)
  | _ =>
    match repos.resourceGetByID resourceID with
    | .error e => ({ allowed := false, reason := "Error fetching resource", err := some e }, cache)
    | .ok none => ({ allowed := false, reason := "Resource not found", err := none }, cache)
    | .ok (some _) =>
      match repos.resourceGetAncestors resourceID with
      | .error e =>
        ({ allowed := false, reason := "Error fetching resource ancestors", err := some e }, cache)
      | .ok ancestors =>
        checkChain repos principal permission context cacheKey cache
          (resourceID :: ancestors.map (fun a => a.id))

/-- Set-as-list insertion preserving first-insertion order; models adding a
key to the `map[string]bool` sets of `GetEffectivePermissions` (Go's map
iteration order is unspecified; the model fixes insertion order). -/
def insertIfAbsent (s : String) (l : List String) : List String :=
  if l.contains s then l else l ++ [s]

/-- The binding loop of `GetEffectivePermissions`: no condition evaluation,
union the role name and all its permission names. -/
def collectBindings (principal : String) : List Binding → List String × List String →
    List String × List String
  | [], acc => acc
  | binding :: rest, (perms, roles) =>
    if ¬ binding.HasMember principal then collectBindings principal rest (perms, roles)
    else
      match binding.role with
      | some role =>
        collectBindings principal rest
          (role.permissions.foldl (fun ps p => insertIfAbsent p.name ps) perms,
           insertIfAbsent role.name roles)
      | none => collectBindings principal rest (perms, roles)

/-- The per-resource loop of `GetEffectivePermissions`: a policy fetch error
is followed by `continue` — that resource is skipped. -/
def collectResources (repos : Repos) (principal : String) :
    List Nat → List String × List String → List String × List String
  | [], acc => acc
  | resID :: rest, acc =>
    match repos.policyGetByResourceID resID with
    | .error _ => collectResources repos principal rest acc
    | .ok none => collectResources repos principal rest acc
    | .ok (some policy) =>
      collectResources repos principal rest (collectBindings principal policy.bindings acc)

/-- `permissionEvaluator.GetEffectivePermissions`: returns the union of
permission names and of role names the principal matches over the resource
and its ancestors. -/
def GetEffectivePermissions (repos : Repos) (principal : String) (resourceID : Nat) :
    Except String (List String × List String) :=
  match repos.resourceGetByID resourceID with
  | .error e => .error e
  | .ok none => .error "resource not found"
  | .ok (some _) =>
    match repos.resourceGetAncestors resourceID with
    | .error e => .error e
    | .ok ancestors =>
      .ok (collectResources repos principal
        (resourceID :: ancestors.map (fun a => a.id)) ([], []))

/-! ## In-memory model of the persistent store

Row types carry exactly the persisted columns; the loaded domain values above
are assembled by the `load*` functions the way the repositories' `Preload`s
do.  `nextUuid` models the `uuid.New()` source: every draw is a value not
drawn before. -/

structure PolicyRow where
  id : Nat
  resourceID : Nat
  etag : String
  version : Int
deriving Repr, DecidableEq

structure BindingRow where
  id : Nat
  policyID : Nat
  roleID : Nat
  members : String
deriving Repr, DecidableEq

structure StoreState where
  resources : List Resource
  permissions : List Permission
  roles : List Role
  policies : List PolicyRow
  bindings : List BindingRow
  conditions : List Condition
  nextUuid : Nat
deriving Repr

/-- `uuid.New().String()`: an opaque fresh string per counter draw; injective
by length, so a fresh draw differs from every shorter previously drawn one. -/
def uuidString (n : Nat) : String :=
  String.mk (List.replicate (n + 1) '#')

def freshUuid (s : StoreState) : Nat × StoreState :=
  (s.nextUuid, { s with nextUuid := s.nextUuid + 1 })

/-- `resourceRepository.GetByID` (`nil, nil` when no live row has the id). -/
def getResource (s : StoreState) (id : Nat) : Option Resource :=
  s.resources.find? (fun r => r.id == id)

/-- The recursive-CTE walk of `resourceRepository.GetAncestors`: follow parent
pointers; a missing parent row ends the chain.  The fuel bounds the recursion
depth; `s.resources.length` suffices for any acyclic store. -/
def ancestorsAux (s : StoreState) : Nat → Option Nat → List Resource
  | 0, _ => []
  | _ + 1, none => []
  | fuel + 1, some pid =>
    match getResource s pid with
    | none => []
    | some parent => parent :: ancestorsAux s fuel parent.parentID

/-- `resourceRepository.GetAncestors`: the chain from the immediate parent up
to the root, excluding the resource itself. -/
def getAncestors (s : StoreState) (id : Nat) : List Resource :=
  match getResource s id with
  | none => []
  | some r => ancestorsAux s s.resources.length r.parentID

/-- Assemble a loaded `Binding` (`Preload("Role")`,
`Preload("Role.Permissions")`, `Preload("Condition")`). -/
def loadBinding (s : StoreState) (row : BindingRow) : Binding :=
  { id := row.id, policyID := row.policyID, roleID := row.roleID,
    members := row.members,
    role := s.roles.find? (fun r => r.id == row.roleID),
    condition := s.conditions.find? (fun c => c.bindingID == row.id) }

/-- Assemble a loaded `Policy` (`Preload("Bindings")` and the nested
preloads). -/
def loadPolicy (s : StoreState) (row : PolicyRow) : Policy :=
  { id := row.id, resourceID := row.resourceID, etag := row.etag,
    version := row.version,
    bindings := (s.bindings.filter (fun b => b.policyID == row.id)).map (loadBinding s) }

/-- The repository contracts over the in-memory store: no call fails, "not
found" is `Option.none`. -/
def storeRepos (s : StoreState) : Repos where
  resourceGetByID := fun id => .ok (getResource s id)
  resourceGetAncestors := fun id => .ok (getAncestors s id)
  policyGetByResourceID := fun rid =>
    .ok ((s.policies.find? (fun p => p.resourceID == rid)).map (loadPolicy s))

/-! ## IAM service facade (`internal/service/iam_service.go`)

Every operation takes the store and the decision-cache state and returns the
call's result together with both updated states. -/

structure OpResult (α : Type) where
  result : Except String α
  store : StoreState
  cache : CacheMap
deriving Repr

/-- `bindingRepo.Create` with the `Binding.BeforeCreate` hook: a zero id is
replaced by a fresh uuid; the row is inserted. -/
def bindingCreate (s : StoreState) (b : BindingRow) : BindingRow × StoreState :=
  let (bid, s1) := if b.id == 0 then freshUuid s else (b.id, s)
  let row := { b with id := bid }
  (row, { s1 with bindings := s1.bindings ++ [row] })

/-- The binding-creation loops of `CreatePolicy`/`UpdatePolicy`: each caller
binding gets `PolicyID` set and is created. -/
def createBindingsFor (pid : Nat) : StoreState → List BindingRow → StoreState
  | s, [] => s
  | s, b :: rest => createBindingsFor pid (bindingCreate s { b with policyID := pid }).2 rest

/-- `policyRepo.Update` (`db.Save`) with the `Policy.BeforeUpdate` hook:
refresh the etag, increment the version, write the row back. -/
def policySave (s : StoreState) (row : PolicyRow) : PolicyRow × StoreState :=
  let (u, s1) := freshUuid s
  let row2 := { row with etag := uuidString u, version := row.version + 1 }
  (row2, { s1 with policies := s1.policies.map (fun p => if p.id == row2.id then row2 else p) })

/-- `policyRepo.GetByID` over the in-memory store. -/
def policyGetByID (s : StoreState) (id : Nat) : Option Policy :=
  (s.policies.find? (fun p => p.id == id)).map (loadPolicy s)

/-- `IAMService.CreatePolicy`: create a version-1 policy (fresh id and etag
via `Policy.BeforeCreate`; the `resource_id` unique index rejects a
duplicate), create each binding with `PolicyID` set, clear the cache, return
the loaded policy. -/
def CreatePolicy (s : StoreState) (cache : CacheMap) (resourceID : Nat)
    (bindings : List BindingRow) : OpResult (Option Policy) :=
  if s.policies.any (fun p => p.resourceID == resourceID) then
    { result := .error "failed to create policy: duplicate resource_id",
      store := s, cache := cache }
  else
    let (pid, s1) := freshUuid s
    let (et, s2) := freshUuid s1
    let row : PolicyRow := { id := pid, resourceID := resourceID,
                             etag := uuidString et, version := 1 }
    let s3 := { s2 with policies := s2.policies ++ [row] }
    let s4 := createBindingsFor row.id s3 bindings
    { result := .ok (policyGetByID s4 row.id), store := s4, cache := [] }

/-- `IAMService.UpdatePolicy`: fetch by resource, check the etag, delete the
existing bindings, create the new ones, save the policy (version bump + fresh
etag), clear the cache, return the reloaded policy. -/
def UpdatePolicy (s : StoreState) (cache : CacheMap) (resourceID : Nat)
    (bindings : List BindingRow) (etag : String) : OpResult (Option Policy) :=
  match s.policies.find? (fun p => p.resourceID == resourceID) with
  | none => { result := .error "policy not found", store := s, cache := cache }
  | some prow =>
    if ¬ (prow.etag == etag) then
      { result := .error "policy has been modified, etag mismatch",
        store := s, cache := cache }
    else
      let s1 := { s with bindings := s.bindings.filter (fun b => ¬ (b.policyID == prow.id)) }
      let s2 := createBindingsFor prow.id s1 bindings
      let (_, s3) := policySave s2 prow
      { result := .ok (policyGetByID s3 prow.id), store := s3, cache := [] }

/-- `IAMService.DeletePolicy`: fetch by resource, check the etag, clear the
cache, delete the policy row. -/
def DeletePolicy (s : StoreState) (cache : CacheMap) (resourceID : Nat)
    (etag : String) : OpResult Unit :=
  match s.policies.find? (fun p => p.resourceID == resourceID) with
  | none => { result := .error "policy not found", store := s, cache := cache }
  | some prow =>
    if ¬ (prow.etag == etag) then
      { result := .error "policy has been modified, etag mismatch",
        store := s, cache := cache }
    else
      { result := .ok (), cache := [],
        store := { s with policies := s.policies.filter (fun p => ¬ (p.id == prow.id)) } }

/-- `IAMService.CreateBinding`: get or implicitly create the resource's
policy, marshal the members, create the binding with `PolicyID` set.  The
condition argument only has its `BindingID` field set on the in-memory value;
no condition row is saved (`// Note: You'd need a condition repository to
save this`).  Clear the cache and return the loaded binding. -/
def CreateBinding (s : StoreState) (cache : CacheMap) (resourceID roleID : Nat)
    (members : List String) (condition : Option Condition) : OpResult (Option Binding) :=
  let (prow, s1) :=
    match s.policies.find? (fun p => p.resourceID == resourceID) with
    | some p => (p, s)
    | none =>
      let (pid, sa) := freshUuid s
      let (et, sb) := freshUuid sa
      let row : PolicyRow := { id := pid, resourceID := resourceID,
                               etag := uuidString et, version := 1 }
      (row, { sb with policies := sb.policies ++ [row] })
  let membersJSON := encodeMembers members
  let (brow, s2) := bindingCreate s1
    { id := 0, policyID := prow.id, roleID := roleID, members := membersJSON }
  { result := .ok ((s2.bindings.find? (fun b => b.id == brow.id)).map (loadBinding s2)),
    store := s2, cache := [] }

/-- `IAMService.DeleteBinding`: clear the cache, delete the binding row. -/
def DeleteBinding (s : StoreState) (cache : CacheMap) (id : Nat) : OpResult Unit :=
  { result := .ok (),
    store := { s with bindings := s.bindings.filter (fun b => ¬ (b.id == id)) },
    cache := [] }

/-- `permissionRepo.GetByIDs` (`WHERE id IN ?`; missing ids are silently
absent). -/
def permissionGetByIDs (s : StoreState) (ids : List Nat) : List Permission :=
  s.permissions.filter (fun p => ids.contains p.id)

/-- `IAMService.CreateRole`: fetch the permissions, create a custom role
(fresh id; the unique name index rejects a duplicate).  The decision cache is
not touched. -/
def CreateRole (s : StoreState) (cache : CacheMap) (name title description : String)
    (permissionIDs : List Nat) : OpResult Role :=
  let perms := permissionGetByIDs s permissionIDs
  if s.roles.any (fun r => r.name == name) then
    { result := .error "failed to create role: duplicate name", store := s, cache := cache }
  else
    let (rid, s1) := freshUuid s
    let role : Role := { id := rid, name := name, title := title,
                         description := description, permissions := perms, isCustom := true }
    { result := .ok role, store := { s1 with roles := s1.roles ++ [role] }, cache := cache }

/-- `IAMService.UpdateRole`: fetch the role, fetch the new permissions, save
the updated role, and return the in-memory role value (whose `Permissions`
field is the new slice).  `roleRepo.Update` is `db.Save`, and GORM `Save`
only upserts the many2many join rows for the permissions in the slice — it
never deletes join rows absent from it — so the persisted permission set is
the union of the old set and the new slice: `UpdateRole` can add but never
remove a role's permissions.  The decision cache is not touched. -/
def UpdateRole (s : StoreState) (cache : CacheMap) (id : Nat) (title description : String)
    (permissionIDs : List Nat) : OpResult Role :=
  match s.roles.find? (fun r => r.id == id) with
  | none => { result := .error "role not found", store := s, cache := cache }
  | some role =>
    let perms := permissionGetByIDs s permissionIDs
    let role2 := { role with
      title := title, description := description, permissions := perms }
    let stored := { role2 with
      permissions := role.permissions ++
        perms.filter (fun p => ¬ (role.permissions.any (fun q => q.id == p.id))) }
    { result := .ok role2, cache := cache,
      store := { s with roles := s.roles.map (fun r => if r.id == id then stored else r) } }

/-- `IAMService.DeleteRole`: delete the role row (GORM delete of a missing id
is not an error).  The decision cache is not touched. -/
def DeleteRole (s : StoreState) (cache : CacheMap) (id : Nat) : OpResult Unit :=
  { result := .ok (),
    store := { s with roles := s.roles.filter (fun r => ¬ (r.id == id)) },
    cache := cache }

/-- `IAMService.CreatePermission`: create the permission (fresh id; unique
name index).  The decision cache is not touched; the facade has no
`DeletePermission` operation at all. -/
def CreatePermission (s : StoreState) (cache : CacheMap)
    (name description service : String) : OpResult Permission :=
  if s.permissions.any (fun p => p.name == name) then
    { result := .error "failed to create permission: duplicate name",
      store := s, cache := cache }
  else
    let (pid, s1) := freshUuid s
    let perm : Permission := { id := pid, name := name, description := description,
                               service := service }
    { result := .ok perm, cache := cache,
      store := { s1 with permissions := s1.permissions ++ [perm] } }

/-! ## Local expiring cache (`cache_service.go`, `memory` variant)

Entries carry an absolute expiration instant; time is an explicit `Nat`
parameter standing for `time.Now()`.  The Go `map[string]cacheEntry` is an
association list whose assignment `m[k] = v` replaces an existing key in
place or appends; `interface{}` values are a type parameter. -/

structure MemCacheEntry (α : Type) where
  value : α
  expiration : Nat
deriving Repr, DecidableEq

structure MemCache (α : Type) where
  data : List (String × MemCacheEntry α)
  enabled : Bool
  maxSize : Nat
  ttl : Nat
deriving Repr

/-- Go map assignment `m[k] = e`: replace the entry of an existing key,
otherwise add the key. -/
def mapAssign {α : Type} (data : List (String × MemCacheEntry α)) (k : String)
    (e : MemCacheEntry α) : List (String × MemCacheEntry α) :=
  if data.any (fun kv => kv.1 == k) then
    data.map (fun kv => if kv.1 == k then (k, e) else kv)
  else data ++ [(k, e)]

/-- `cacheService.evictExpired`: drop every entry strictly past its
expiration (`now.After(entry.expiration)`). -/
def evictExpired {α : Type} (now : Nat) (data : List (String × MemCacheEntry α)) :
    List (String × MemCacheEntry α) :=
  data.filter (fun kv => ¬ (now > kv.2.expiration))

/-- `cacheService.Get`: disabled means miss; a present entry strictly past
its expiration is a miss without mutating the map. -/
def memGet {α : Type} (c : MemCache α) (now : Nat) (key : String) : Option α :=
  if ¬ c.enabled then none
  else
    match c.data.lookup key with
    | none => none
    | some entry => if now > entry.expiration then none else some entry.value

/-- `cacheService.Set`: when the map has reached `maxSize`, sweep expired
entries; if still at the bound, discard the whole map; then insert the entry
with expiration `now + ttl`. -/
def memSet {α : Type} (c : MemCache α) (now : Nat) (key : String) (value : α) :
    MemCache α :=
  if ¬ c.enabled then c
  else
    let data1 :=
      if c.data.length ≥ c.maxSize then
        let swept := evictExpired now c.data
        if swept.length ≥ c.maxSize then [] else swept
      else c.data
    { c with data := mapAssign data1 key { value := value, expiration := now + c.ttl } }

/-- `cacheService.Delete`. -/
def memDelete {α : Type} (c : MemCache α) (key : String) : MemCache α :=
  if ¬ c.enabled then c
  else { c with data := c.data.filter (fun kv => ¬ (kv.1 == key)) }

/-- `cacheService.Clear`. -/
def memClear {α : Type} (c : MemCache α) : MemCache α :=
  { c with data := [] }

/-! ## The parent chain as a relation

`ParentChain s p l` holds when `l` is the complete ancestor list obtained by
following parent pointers starting at `p`: it ends at a root (no parent) or
at a dangling parent id, exactly as the recursive CTE of `GetAncestors`
terminates.  A store with a cycle on the chain admits no derivation, so the
relation also expresses the acyclicity invariant of §3 of the spec along the
chain. -/

inductive ParentChain (s : StoreState) : Option Nat → List Resource → Prop
  | root : ParentChain s none []
  | dangling (pid : Nat) : getResource s pid = none → ParentChain s (some pid) []
  | step (pid : Nat) (r : Resource) (l : List Resource) :
      getResource s pid = some r → ParentChain s r.parentID l →
      ParentChain s (some pid) (r :: l)

/-! ## Concrete stores used by witnesses and counterexamples -/

/-- `storage.objects.read`, as in the spec's seed scenarios. -/
def exPermRead : Permission :=
  { id := 20, name := "storage.objects.read", description := "", service := "storage" }

def exRoleViewer : Role :=
  { id := 10, name := "roles/storage.viewer", title := "Viewer", description := "",
    permissions := [exPermRead], isCustom := false }

def exOrg : Resource :=
  { id := 1, resType := "organization", name := "org", parentID := none }

def exBucket : Resource :=
  { id := 2, resType := "bucket", name := "data", parentID := some 1 }

/-- A store with `org → bucket`, a policy on the org whose single binding
grants `roles/storage.viewer` to `user:alice@example.com`. -/
def exStore : StoreState :=
  { resources := [exOrg, exBucket],
    permissions := [exPermRead],
    roles := [exRoleViewer],
    policies := [{ id := 30, resourceID := 1, etag := "etag-org", version := 1 }],
    bindings := [{ id := 40, policyID := 30, roleID := 10,
                   members := "[\"user:alice@example.com\"]" }],
    conditions := [],
    nextUuid := 100 }

/-- The cache key of the decision `(alice, bucket, storage.objects.read)`. -/
def exKey : String :=
  GenerateCacheKey "user:alice@example.com" "2" "storage.objects.read"

/-- A cache holding a (stale or fresh) positive decision for `exKey`. -/
def exCache : CacheMap := [(exKey, true)]

/-- Repositories whose policy fetch always fails while the resource and
ancestor fetches succeed: exercises the error paths of the evaluator. -/
def badPolicyRepos : Repos where
  resourceGetByID := fun id => .ok (if id == 1 then some exOrg else none)
  resourceGetAncestors := fun _ => .ok []
  policyGetByResourceID := fun _ => .error "boom"

/-- A binding with a well-formed members array. -/
def exBinding : Binding :=
  { id := 40, policyID := 30, roleID := 10,
    members := "[\"user:alice@example.com\", \"group:admins\"]",
    role := some exRoleViewer, condition := none }

/-- A binding whose stored members bytes are not well-formed JSON. -/
def badBinding : Binding :=
  { id := 41, policyID := 30, roleID := 10, members := "invalid json",
    role := some exRoleViewer, condition := none }

/-- Repositories whose every fetch fails: exercises error propagation. -/
def downRepos : Repos where
  resourceGetByID := fun _ => .error "db down"
  resourceGetAncestors := fun _ => .error "db down"
  policyGetByResourceID := fun _ => .error "db down"

/-- An enabled local cache at its size bound with no expired entry. -/
def exMemCache : MemCache Bool :=
  { data := [("k1", { value := true, expiration := 1000 }),
             ("k2", { value := true, expiration := 1000 })],
    enabled := true, maxSize := 2, ttl := 60 }

/-! ## Helper lemmas about the evaluator -/

theorem evaluateCondition_true (condition : Option Condition) (context : Ctx) :
    evaluateCondition condition context = true := by
  cases condition with
  | none => rfl
  | some cond => simp [evaluateCondition]

theorem checkBindings_ctx (principal permission : String) (ctx ctx' : Ctx)
    (resourceID : Nat) (bs : List Binding) :
    checkBindings principal permission ctx resourceID bs =
      checkBindings principal permission ctx' resourceID bs := by
  induction bs with
  | nil => rfl
  | cons b rest ih => simp [checkBindings, evaluateCondition_true, ih]

theorem checkBindings_err (principal permission : String) (context : Ctx)
    (resourceID : Nat) (bs : List Binding) :
    (checkBindings principal permission context resourceID bs).err = none := by
  induction bs with
  | nil => rfl
  | cons b rest ih =>
    simp only [checkBindings]
    split
    · exact ih
    · split
      · exact ih
      · split
        · split
          · rfl
          · exact ih
        · exact ih

theorem checkResourcePermission_ctx (repos : Repos) (principal : String) (resourceID : Nat)
    (permission : String) (ctx ctx' : Ctx) :
    checkResourcePermission repos principal resourceID permission ctx =
      checkResourcePermission repos principal resourceID permission ctx' := by
  unfold checkResourcePermission
  cases hpol : repos.policyGetByResourceID resourceID with
  | error e => rfl
  | ok po =>
    cases po with
    | none => rfl
    | some policy => exact checkBindings_ctx principal permission ctx ctx' resourceID policy.bindings

theorem checkResourcePermission_storeRepos_err (s : StoreState) (principal : String)
    (resourceID : Nat) (permission : String) (context : Ctx) :
    (checkResourcePermission (storeRepos s) principal resourceID permission context).err
      = none := by
  unfold checkResourcePermission storeRepos
  cases hfind : s.policies.find? (fun p => p.resourceID == resourceID) with
  | none => simp [hfind]
  | some prow => simp [hfind, checkBindings_err]

theorem checkChain_cache_disj (repos : Repos) (principal permission : String) (context : Ctx)
    (cacheKey : String) (cache : CacheMap) (l : List Nat) :
    (checkChain repos principal permission context cacheKey cache l).2 = cache ∨
      ((checkChain repos principal permission context cacheKey cache l).1.allowed = true ∧
       (checkChain repos principal permission context cacheKey cache l).2 =
         cacheSet cache cacheKey true) := by
  induction l with
  | nil => left; rfl
  | cons resID rest ih =>
    simp only [checkChain]
    cases herr : (checkResourcePermission repos principal resID permission context).err with
    | some e => left; rfl
    | none =>
      by_cases hall : (checkResourcePermission repos principal resID permission context).allowed
      · right; simp [hall]
      · simp only [hall]; simpa using ih

theorem checkChain_allowed_iff (repos : Repos) (principal permission : String) (context : Ctx)
    (cacheKey : String) (cache : CacheMap) (l : List Nat)
    (herr : ∀ resID ∈ l,
      (checkResourcePermission repos principal resID permission context).err = none) :
    (checkChain repos principal permission context cacheKey cache l).1.allowed = true ↔
      ∃ resID ∈ l,
        (checkResourcePermission repos principal resID permission context).allowed = true := by
  induction l with
  | nil => simp [checkChain]
  | cons resID rest ih =>
    have h1 := herr resID (List.mem_cons_self resID rest)
    simp only [checkChain, h1]
    by_cases hall : (checkResourcePermission repos principal resID permission context).allowed
    · simp [hall]
    · have ih2 := ih (fun r hr => herr r (List.mem_cons_of_mem resID hr))
      simp only [hall]
      simp only [Bool.not_eq_true] at hall
      simp [ih2, hall]

theorem checkChain_ctx (repos : Repos) (principal permission : String) (ctx ctx' : Ctx)
    (cacheKey : String) (cache : CacheMap) (l : List Nat) :
    checkChain repos principal permission ctx cacheKey cache l =
      checkChain repos principal permission ctx' cacheKey cache l := by
  induction l with
  | nil => rfl
  | cons resID rest ih =>
    simp only [checkChain, checkResourcePermission_ctx repos principal resID permission ctx ctx',
      ih]

theorem CheckPermission_ctx (repos : Repos) (cache : CacheMap) (principal : String)
    (resourceID : Nat) (permission : String) (ctx ctx' : Ctx) :
    CheckPermission repos cache principal resourceID permission ctx =
      CheckPermission repos cache principal resourceID permission ctx' := by
  unfold CheckPermission
  cases hc : cacheGet cache (GenerateCacheKey principal (toString resourceID) permission) with
  | some b =>
    cases b with
    | true => simp [hc]
    | false =>
      simp only [hc]
      cases hr : repos.resourceGetByID resourceID with
      | error e => rfl
      | ok ro =>
        cases ro with
        | none => rfl
        | some r =>
          cases ha : repos.resourceGetAncestors resourceID with
          | error e => rfl
          | ok ancs => exact checkChain_ctx repos principal permission ctx ctx' _ cache _
  | none =>
    simp only [hc]
    cases hr : repos.resourceGetByID resourceID with
    | error e => rfl
    | ok ro =>
      cases ro with
      | none => rfl
      | some r =>
        cases ha : repos.resourceGetAncestors resourceID with
        | error e => rfl
        | ok ancs => exact checkChain_ctx repos principal permission ctx ctx' _ cache _

theorem CheckPermission_eq_chain (repos : Repos) (cache : CacheMap) (principal : String)
    (resourceID : Nat) (permission : String) (context : Ctx) (r : Resource)
    (ancs : List Resource)
    (hmiss : cacheGet cache (GenerateCacheKey principal (toString resourceID) permission)
      ≠ some true)
    (hr : repos.resourceGetByID resourceID = .ok (some r))
    (ha : repos.resourceGetAncestors resourceID = .ok ancs) :
    CheckPermission repos cache principal resourceID permission context =
      checkChain repos principal permission context
        (GenerateCacheKey principal (toString resourceID) permission) cache
        (resourceID :: ancs.map (fun a => a.id)) := by
  unfold CheckPermission
  cases hc : cacheGet cache (GenerateCacheKey principal (toString resourceID) permission) with
  | none => simp [hc, hr, ha]
  | some b =>
    cases b with
    | true => exact absurd hc hmiss
    | false => simp [hc, hr, ha]

/-! ## Helper lemmas about the parent chain -/

theorem ancestorsAux_none (s : StoreState) (fuel : Nat) : ancestorsAux s fuel none = [] := by
  cases fuel <;> rfl

theorem parentChain_ancestorsAux (s : StoreState) {p : Option Nat} {l : List Resource}
    (h : ParentChain s p l) : ∀ fuel, l.length ≤ fuel → ancestorsAux s fuel p = l := by
  induction h with
  | root => intro fuel _; exact ancestorsAux_none s fuel
  | dangling pid hnone =>
    intro fuel _
    cases fuel with
    | zero => rfl
    | succ f => simp [ancestorsAux, hnone]
  | step pid r l hr hchain ih =>
    intro fuel hlen
    cases fuel with
    | zero => simp at hlen
    | succ f =>
      have : l.length ≤ f := by simpa using hlen
      simp [ancestorsAux, hr, ih f this]

theorem parentChain_suffix (s : StoreState) {a : Resource} :
    ∀ (l₁ : List Resource) {l₂ : List Resource} {p : Option Nat},
      ParentChain s p (l₁ ++ a :: l₂) →
      ParentChain s a.parentID l₂ ∧ getResource s a.id = some a := by
  intro l₁
  induction l₁ with
  | nil =>
    intro l₂ p h
    cases h with
    | step pid r l hr hchain =>
      have hid : (a.id == pid) = true := by
        have := List.find?_some hr
        simpa using this
      have : a.id = pid := by simpa using hid
      exact ⟨hchain, by rw [getResource] at hr ⊢; rw [this]; exact hr⟩
  | cons b l₁ ih =>
    intro l₂ p h
    cases h with
    | step pid r l hr hchain => exact ih hchain

theorem getAncestors_eq (s : StoreState) {rid : Nat} {r : Resource} {l : List Resource}
    (hr : getResource s rid = some r) (hc : ParentChain s r.parentID l)
    (hlen : l.length ≤ s.resources.length) : getAncestors s rid = l := by
  unfold getAncestors
  rw [hr]
  exact parentChain_ancestorsAux s hc _ hlen

/-! ## Helper lemmas about the facade's store model -/

theorem bindingCreate_policies (s : StoreState) (b : BindingRow) :
    (bindingCreate s b).2.policies = s.policies := by
  unfold bindingCreate freshUuid
  by_cases h : (b.id == 0) = true <;> simp [h]

theorem bindingCreate_nextUuid (s : StoreState) (b : BindingRow) :
    s.nextUuid ≤ (bindingCreate s b).2.nextUuid := by
  unfold bindingCreate freshUuid
  by_cases h : (b.id == 0) = true <;> simp [h]

theorem createBindingsFor_policies (pid : Nat) (bs : List BindingRow) :
    ∀ s : StoreState, (createBindingsFor pid s bs).policies = s.policies := by
  induction bs with
  | nil => intro s; rfl
  | cons b rest ih =>
    intro s
    simp only [createBindingsFor]
    rw [ih, bindingCreate_policies]

theorem createBindingsFor_nextUuid (pid : Nat) (bs : List BindingRow) :
    ∀ s : StoreState, s.nextUuid ≤ (createBindingsFor pid s bs).nextUuid := by
  induction bs with
  | nil => intro s; exact le_refl _
  | cons b rest ih =>
    intro s
    simp only [createBindingsFor]
    exact le_trans (bindingCreate_nextUuid s _) (ih _)

theorem find?_map_replace (l : List PolicyRow) (row2 : PolicyRow)
    (hex : ∃ p ∈ l, p.id = row2.id) :
    (l.map (fun p => if p.id == row2.id then row2 else p)).find?
      (fun p => p.id == row2.id) = some row2 := by
  induction l with
  | nil => simp at hex
  | cons q rest ih =>
    by_cases hq : q.id = row2.id
    · simp [hq]
    · have hex' : ∃ p ∈ rest, p.id = row2.id := by
        rcases hex with ⟨p, hp, hpid⟩
        rcases List.mem_cons.mp hp with h | h
        · exact absurd (h ▸ hpid) hq
        · exact ⟨p, h, hpid⟩
      simpa [hq] using ih hex'

theorem uuidString_length (n : Nat) : (uuidString n).length = n + 1 := by
  simp [uuidString, String.length]

theorem uuidString_ne_of_short {e : String} {n : Nat} (h : e.length ≤ n) :
    uuidString n ≠ e := by
  intro heq
  have : (uuidString n).length = e.length := by rw [heq]
  rw [uuidString_length] at this
  omega

/-! ## Reduction lemmas for the early-return branches of the evaluator -/

theorem CheckPermission_resource_error (repos : Repos) (cache : CacheMap) (principal : String)
    (resourceID : Nat) (permission : String) (context : Ctx) (e : String)
    (hmiss : cacheGet cache (GenerateCacheKey principal (toString resourceID) permission)
      ≠ some true)
    (hr : repos.resourceGetByID resourceID = .error e) :
    CheckPermission repos cache principal resourceID permission context =
      ({ allowed := false, reason := "Error fetching resource", err := some e }, cache) := by
  unfold CheckPermission
  cases hc : cacheGet cache (GenerateCacheKey principal (toString resourceID) permission) with
  | none => simp [hc, hr]
  | some b =>
    cases b with
    | true => exact absurd hc hmiss
    | false => simp [hc, hr]

theorem CheckPermission_resource_missing (repos : Repos) (cache : CacheMap) (principal : String)
    (resourceID : Nat) (permission : String) (context : Ctx)
    (hmiss : cacheGet cache (GenerateCacheKey principal (toString resourceID) permission)
      ≠ some true)
    (hr : repos.resourceGetByID resourceID = .ok none) :
    CheckPermission repos cache principal resourceID permission context =
      ({ allowed := false, reason := "Resource not found", err := none }, cache) := by
  unfold CheckPermission
  cases hc : cacheGet cache (GenerateCacheKey principal (toString resourceID) permission) with
  | none => simp [hc, hr]
  | some b =>
    cases b with
    | true => exact absurd hc hmiss
    | false => simp [hc, hr]

theorem CheckPermission_ancestors_error (repos : Repos) (cache : CacheMap) (principal : String)
    (resourceID : Nat) (permission : String) (context : Ctx) (r : Resource) (e : String)
    (hmiss : cacheGet cache (GenerateCacheKey principal (toString resourceID) permission)
      ≠ some true)
    (hr : repos.resourceGetByID resourceID = .ok (some r))
    (ha : repos.resourceGetAncestors resourceID = .error e) :
    CheckPermission repos cache principal resourceID permission context =
      ({ allowed := false, reason := "Error fetching resource ancestors", err := some e },
        cache) := by
  unfold CheckPermission
  cases hc : cacheGet cache (GenerateCacheKey principal (toString resourceID) permission) with
  | none => simp [hc, hr, ha]
  | some b =>
    cases b with
    | true => exact absurd hc hmiss
    | false => simp [hc, hr, ha]

theorem checkChain_policy_error (repos : Repos) (principal permission : String) (context : Ctx)
    (cacheKey : String) (cache : CacheMap) (resID : Nat) (rest : List Nat) (e : String)
    (he : repos.policyGetByResourceID resID = .error e) :
    checkChain repos principal permission context cacheKey cache (resID :: rest) =
      ({ allowed := false, reason := "Error fetching policy", err := some e }, cache) := by
  simp [checkChain, checkResourcePermission, he]

theorem GetEffectivePermissions_resource_error (repos : Repos) (principal : String)
    (resourceID : Nat) (e : String)
    (hr : repos.resourceGetByID resourceID = .error e) :
    GetEffectivePermissions repos principal resourceID = .error e := by
  simp [GetEffectivePermissions, hr]

theorem GetEffectivePermissions_ancestors_error (repos : Repos) (principal : String)
    (resourceID : Nat) (r : Resource) (e : String)
    (hr : repos.resourceGetByID resourceID = .ok (some r))
    (ha : repos.resourceGetAncestors resourceID = .error e) :
    GetEffectivePermissions repos principal resourceID = .error e := by
  simp [GetEffectivePermissions, hr, ha]

theorem collectResources_error_skip (repos : Repos) (principal : String) (resID : Nat)
    (rest : List Nat) (acc : List String × List String) (e : String)
    (he : repos.policyGetByResourceID resID = .error e) :
    collectResources repos principal (resID :: rest) acc =
      collectResources repos principal rest acc := by
  simp [collectResources, he]

/-! ## Claim theorems -/

/-- Claim C4: the evaluator never writes a negative decision to the cache —
every `CheckPermission` call either leaves the cache unchanged or, exactly
when the decision is `allowed = true`, writes `true` under the decision key;
in particular an exhausted chain returns a false decision with the cache
unchanged. -/
theorem checkPermission_positive_only_cache (repos : Repos) (cache : CacheMap)
    (principal : String) (resourceID : Nat) (permission : String) (context : Ctx) :
    (CheckPermission repos cache principal resourceID permission context).2 = cache ∨
      ((CheckPermission repos cache principal resourceID permission context).1.allowed = true ∧
       (CheckPermission repos cache principal resourceID permission context).2 =
         cacheSet cache (GenerateCacheKey principal (toString resourceID) permission) true) := by
  by_cases hc : cacheGet cache (GenerateCacheKey principal (toString resourceID) permission)
      = some true
  · left; simp [CheckPermission, hc]
  · cases hr : repos.resourceGetByID resourceID with
    | error e =>
      left
      rw [CheckPermission_resource_error repos cache principal resourceID permission context e
        hc hr]
    | ok ro =>
      cases ro with
      | none =>
        left
        rw [CheckPermission_resource_missing repos cache principal resourceID permission context
          hc hr]
      | some r =>
        cases ha : repos.resourceGetAncestors resourceID with
        | error e =>
          left
          rw [CheckPermission_ancestors_error repos cache principal resourceID permission
            context r e hc hr ha]
        | ok ancs =>
          rw [CheckPermission_eq_chain repos cache principal resourceID permission context r
            ancs hc hr ha]
          exact checkChain_cache_disj repos principal permission context _ cache _

/-- Claim C6: `check` on a resource id that does not resolve to a live
resource (a `nil, nil` repository result) returns a successful `false`
decision with the reason `Resource not found` and no error, leaving the
cache unchanged — provided the call is not served from the cache probe that
precedes resolution. -/
theorem checkPermission_missing_resource (repos : Repos) (cache : CacheMap)
    (principal : String) (resourceID : Nat) (permission : String) (context : Ctx)
    (hmiss : cacheGet cache (GenerateCacheKey principal (toString resourceID) permission)
      ≠ some true)
    (hr : repos.resourceGetByID resourceID = .ok none) :
    CheckPermission repos cache principal resourceID permission context =
      ({ allowed := false, reason := "Resource not found", err := none }, cache) :=
  CheckPermission_resource_missing repos cache principal resourceID permission context hmiss hr

/-- Witness for C6 at a concrete store: resource id 7 does not exist in
`exStore`, and `check` returns the successful false decision. -/
theorem checkPermission_missing_resource_witness :
    CheckPermission (storeRepos exStore) [] "user:alice@example.com" 7
        "storage.objects.read" [] =
      ({ allowed := false, reason := "Resource not found", err := none }, []) :=
  checkPermission_missing_resource (storeRepos exStore) [] "user:alice@example.com" 7
    "storage.objects.read" [] (by decide) rfl

/-- Claim C9: the decision of `check` is independent of the supplied context
map, because the built-in condition hook accepts every expression and every
context, so no binding is ever vetoed by its condition. -/
theorem checkPermission_context_independent :
    (∀ (condition : Option Condition) (context : Ctx),
        evaluateCondition condition context = true)
    ∧ (∀ (repos : Repos) (cache : CacheMap) (principal : String) (resourceID : Nat)
        (permission : String) (ctx₁ ctx₂ : Ctx),
        (CheckPermission repos cache principal resourceID permission ctx₁).1.allowed =
        (CheckPermission repos cache principal resourceID permission ctx₂).1.allowed) := by
  refine ⟨evaluateCondition_true, ?_⟩
  intro repos cache principal resourceID permission ctx₁ ctx₂
  rw [CheckPermission_ctx repos cache principal resourceID permission ctx₁ ctx₂]

/-- Claim C5, corrected: for `check`, a repository error during any fetch
(resource, ancestors, or the policy of the chain element being examined) is
propagated with a false decision and a stage-describing reason, provided the
call is not served from the preceding cache probe; for `effective`, resource
and ancestor fetch errors are propagated, but a policy fetch error during
the chain walk is silently skipped — the walk continues and that resource
contributes nothing. -/
theorem repoError_propagation (repos : Repos) (cache : CacheMap) (principal : String)
    (resourceID : Nat) (permission : String) (context : Ctx) (e : String) (r : Resource)
    (ancs : List Resource) (rest : List Nat) (cacheKey : String)
    (acc : List String × List String) :
    (cacheGet cache (GenerateCacheKey principal (toString resourceID) permission)
        ≠ some true →
      repos.resourceGetByID resourceID = .error e →
      CheckPermission repos cache principal resourceID permission context =
        ({ allowed := false, reason := "Error fetching resource", err := some e }, cache))
    ∧ (cacheGet cache (GenerateCacheKey principal (toString resourceID) permission)
        ≠ some true →
      repos.resourceGetByID resourceID = .ok (some r) →
      repos.resourceGetAncestors resourceID = .error e →
      CheckPermission repos cache principal resourceID permission context =
        ({ allowed := false, reason := "Error fetching resource ancestors", err := some e },
          cache))
    ∧ (repos.policyGetByResourceID resourceID = .error e →
      checkChain repos principal permission context cacheKey cache (resourceID :: rest) =
        ({ allowed := false, reason := "Error fetching policy", err := some e }, cache))
    ∧ (cacheGet cache (GenerateCacheKey principal (toString resourceID) permission)
        ≠ some true →
      repos.resourceGetByID resourceID = .ok (some r) →
      repos.resourceGetAncestors resourceID = .ok ancs →
      CheckPermission repos cache principal resourceID permission context =
        checkChain repos principal permission context
          (GenerateCacheKey principal (toString resourceID) permission) cache
          (resourceID :: ancs.map (fun a => a.id)))
    ∧ (repos.resourceGetByID resourceID = .error e →
      GetEffectivePermissions repos principal resourceID = .error e)
    ∧ (repos.resourceGetByID resourceID = .ok (some r) →
      repos.resourceGetAncestors resourceID = .error e →
      GetEffectivePermissions repos principal resourceID = .error e)
    ∧ (repos.policyGetByResourceID resourceID = .error e →
      collectResources repos principal (resourceID :: rest) acc =
        collectResources repos principal rest acc) := by
  refine ⟨?_, ?_, ?_, ?_, ?_, ?_, ?_⟩
  · exact CheckPermission_resource_error repos cache principal resourceID permission context e
  · exact CheckPermission_ancestors_error repos cache principal resourceID permission context r e
  · exact checkChain_policy_error repos principal permission context cacheKey cache resourceID
      rest e
  · exact CheckPermission_eq_chain repos cache principal resourceID permission context r ancs
  · exact GetEffectivePermissions_resource_error repos principal resourceID e
  · exact GetEffectivePermissions_ancestors_error repos principal resourceID r e
  · exact collectResources_error_skip repos principal resourceID rest acc e

/-- Witness for C5 at concrete inputs: with repositories whose every fetch
fails, `check` and `effective` both propagate the resource-fetch error. -/
theorem repoError_propagation_witness :
    CheckPermission downRepos [] "user:alice@example.com" 5 "storage.objects.read" [] =
      ({ allowed := false, reason := "Error fetching resource", err := some "db down" }, [])
    ∧ GetEffectivePermissions downRepos "user:alice@example.com" 5 = .error "db down" := by
  have h := repoError_propagation downRepos [] "user:alice@example.com" 5
    "storage.objects.read" [] "db down" exOrg [] [] "" ([], [])
  exact ⟨h.1 (by decide) rfl, h.2.2.2.2.1 rfl⟩

/-- Counterexample for C5 as frozen: `GetEffectivePermissions` does not
propagate a policy fetch error — with repositories whose policy fetch always
fails, `effective` on resource 1 succeeds with empty results instead of
returning the error. -/
theorem effective_swallows_policy_error :
    badPolicyRepos.policyGetByResourceID 1 = .error "boom"
    ∧ GetEffectivePermissions badPolicyRepos "user:alice@example.com" 1 = .ok ([], []) :=
  ⟨rfl, rfl⟩

/-- Claim C7: binding membership is byte-exact — `HasMember principal` is
true iff the principal string equals, byte for byte, an element of the
decoded members array (so a principal differing only in case or whitespace
is not a member); when the stored members bytes are not a well-formed JSON
string array the decode errors out (returning the empty nil slice) and
`HasMember` is false for every principal. -/
theorem hasMember_byte_exact :
    (∀ (b : Binding) (ms : List String) (principal : String),
        b.GetMembers = some ms → (b.HasMember principal = true ↔ principal ∈ ms))
    ∧ (∀ (b : Binding) (principal : String),
        b.GetMembers = none → b.HasMember principal = false) := by
  constructor
  · intro b ms principal h
    simp only [Binding.HasMember, h]
    simp [List.any_eq_true]
  · intro b principal h
    simp only [Binding.HasMember, h]

set_option maxRecDepth 8192 in
/-- Witness for C7 at concrete bytes: exact membership holds, case- and
whitespace-variants are rejected, and ill-formed members bytes give an
erroring decode and no membership. -/
theorem hasMember_byte_exact_witness :
    exBinding.HasMember "user:alice@example.com" = true
    ∧ exBinding.HasMember "User:alice@example.com" = false
    ∧ exBinding.HasMember "user:alice@example.com " = false
    ∧ badBinding.GetMembers = none
    ∧ badBinding.HasMember "user:alice@example.com" = false := by
  refine ⟨?_, by decide, by decide, by decide, ?_⟩
  · exact (hasMember_byte_exact.1 exBinding
      ["user:alice@example.com", "group:admins"] "user:alice@example.com" (by decide)).2
      (by decide)
  · exact hasMember_byte_exact.2 badBinding "user:alice@example.com" (by decide)

/-- The Go map assignment adds at most one entry. -/
theorem mapAssign_length {α : Type} (data : List (String × MemCacheEntry α)) (k : String)
    (e : MemCacheEntry α) : (mapAssign data k e).length ≤ data.length + 1 := by
  unfold mapAssign
  split
  · simp
  · simp

/-- The map contents after an enabled `Set`, spelling out the eviction
cascade. -/
theorem memSet_data {α : Type} (c : MemCache α) (now : Nat) (key : String) (v : α)
    (hen : c.enabled = true) :
    (memSet c now key v).data =
      mapAssign
        (if c.data.length ≥ c.maxSize then
          (if (evictExpired now c.data).length ≥ c.maxSize then []
           else evictExpired now c.data)
         else c.data)
        key { value := v, expiration := now + c.ttl } := by
  unfold memSet
  rw [if_neg]
  simp [hen]

/-- Claim C8: the local expiring cache stays within its configured bound —
for an enabled cache with a positive `maxSize`, `Set` first sweeps expired
entries when the map is at the bound and discards the whole map if it is
still at the bound, so the map holds at most `maxSize` entries after any
`Set`, whatever the prior contents. -/
theorem memSet_size_bounded {α : Type} (c : MemCache α) (now : Nat) (key : String) (v : α)
    (hen : c.enabled = true) (hmax : 1 ≤ c.maxSize) :
    (memSet c now key v).data.length ≤ c.maxSize := by
  rw [memSet_data c now key v hen]
  by_cases hfull : c.data.length ≥ c.maxSize
  · rw [if_pos hfull]
    by_cases hsw : (evictExpired now c.data).length ≥ c.maxSize
    · rw [if_pos hsw]
      have h := mapAssign_length ([] : List (String × MemCacheEntry α)) key
        { value := v, expiration := now + c.ttl }
      simp only [List.length_nil] at h
      omega
    · rw [if_neg hsw]
      have h := mapAssign_length (evictExpired now c.data) key
        { value := v, expiration := now + c.ttl }
      omega
  · rw [if_neg hfull]
    have h := mapAssign_length c.data key { value := v, expiration := now + c.ttl }
    omega

/-- Witness for C8: a concrete enabled cache at its bound of 2 with no
expired entry; after a `Set` of a third key the map still holds at most 2
entries (the mass eviction fired). -/
theorem memSet_size_bounded_witness :
    exMemCache.enabled = true ∧ 1 ≤ exMemCache.maxSize
    ∧ (memSet exMemCache 50 "k3" true).data.length ≤ exMemCache.maxSize :=
  ⟨rfl, by decide, memSet_size_bounded exMemCache 50 "k3" true rfl (by decide)⟩

/-- Claim C1, corrected: only the policy-touching facade mutations —
`CreatePolicy`, `UpdatePolicy`, `DeletePolicy` (each on its success path),
`CreateBinding` and `DeleteBinding` (always) — clear the decision cache.
The role and permission mutations (`CreateRole`, `UpdateRole`, `DeleteRole`,
`CreatePermission`) never touch the decision cache, and the facade has no
`DeletePermission` operation at all. -/
theorem facade_cache_clearing (s : StoreState) (cache : CacheMap)
    (resourceID roleID bindingID entityID : Nat) (bs : List BindingRow)
    (etag name title description service : String) (ms : List String)
    (cond : Option Condition) (permissionIDs : List Nat) :
    ((CreatePolicy s cache resourceID bs).result.isOk = true →
      (CreatePolicy s cache resourceID bs).cache = [])
    ∧ ((UpdatePolicy s cache resourceID bs etag).result.isOk = true →
      (UpdatePolicy s cache resourceID bs etag).cache = [])
    ∧ ((DeletePolicy s cache resourceID etag).result.isOk = true →
      (DeletePolicy s cache resourceID etag).cache = [])
    ∧ (CreateBinding s cache resourceID roleID ms cond).cache = []
    ∧ (DeleteBinding s cache bindingID).cache = []
    ∧ (CreateRole s cache name title description permissionIDs).cache = cache
    ∧ (UpdateRole s cache entityID title description permissionIDs).cache = cache
    ∧ (DeleteRole s cache entityID).cache = cache
    ∧ (CreatePermission s cache name description service).cache = cache := by
  refine ⟨?_, ?_, ?_, ?_, rfl, ?_, ?_, rfl, ?_⟩
  · unfold CreatePolicy
    split
    · intro h
      simp [Except.isOk, Except.toBool] at h
    · intro _
      rfl
  · unfold UpdatePolicy
    cases hf : s.policies.find? (fun p => p.resourceID == resourceID) with
    | none =>
      intro h
      simp [Except.isOk, Except.toBool] at h
    | some prow =>
      by_cases he : (prow.etag == etag) = true
      · intro _
        simp [he, policySave, freshUuid]
      · intro h
        simp [he, Except.isOk, Except.toBool] at h
  · unfold DeletePolicy
    cases hf : s.policies.find? (fun p => p.resourceID == resourceID) with
    | none =>
      intro h
      simp [Except.isOk, Except.toBool] at h
    | some prow =>
      by_cases he : (prow.etag == etag) = true
      · intro _
        simp [he]
      · intro h
        simp [he, Except.isOk, Except.toBool] at h
  · unfold CreateBinding
    cases hf : s.policies.find? (fun p => p.resourceID == resourceID) <;> rfl
  · unfold CreateRole
    split <;> rfl
  · unfold UpdateRole
    cases hf : s.roles.find? (fun r => r.id == entityID) <;> rfl
  · unfold CreatePermission
    split <;> rfl

/-- Witness for C1 (amended) at concrete inputs: a successful `UpdatePolicy`
clears the cache while a successful `UpdateRole` returns it untouched. -/
theorem facade_cache_clearing_witness :
    (UpdatePolicy exStore exCache 1 [] "etag-org").result.isOk = true
    ∧ (UpdatePolicy exStore exCache 1 [] "etag-org").cache = []
    ∧ (UpdateRole exStore exCache 10 "T" "D" []).result.isOk = true
    ∧ (UpdateRole exStore exCache 10 "T" "D" []).cache = exCache := by
  have h := facade_cache_clearing exStore exCache 1 10 40 10 [] "etag-org" "n" "T" "D" "sv"
    [] none []
  exact ⟨by decide, h.2.1 (by decide), by decide, h.2.2.2.2.2.2.1⟩

/-- Counterexample for C1 as frozen: `DeleteRole` (a role edit that deletes
the very role a cached decision relied on, making its binding grant nothing)
succeeds without clearing the decision cache — the stale entry survives, a
subsequent `check` is served from the cache without consulting the store,
while a cache-less `check` against the mutated store already denies. -/
theorem deleteRole_does_not_clear_cache :
    (DeleteRole exStore exCache 10).result.isOk = true
    ∧ (DeleteRole exStore exCache 10).cache = exCache
    ∧ exCache ≠ []
    ∧ (CheckPermission (storeRepos (DeleteRole exStore exCache 10).store)
        (DeleteRole exStore exCache 10).cache
        "user:alice@example.com" 2 "storage.objects.read" []).1 =
      { allowed := true, reason := "Permission granted (cached)", err := none }
    ∧ (CheckPermission (storeRepos (DeleteRole exStore exCache 10).store)
        [] "user:alice@example.com" 2 "storage.objects.read" []).1.allowed = false := by
  refine ⟨by decide, rfl, by decide, rfl, by decide⟩

/-- Claim C10: `CreateBinding` creates a version-1 policy for the target
resource exactly when none exists (the store's policies are otherwise left
unchanged), creates the binding with its `policyID` pointing at that
resource's policy, succeeds, and never persists the supplied condition: the
stored condition rows are unchanged even when a non-null condition argument
is passed. -/
theorem createBinding_effects (s : StoreState) (cache : CacheMap) (resourceID roleID : Nat)
    (members : List String) (cond : Condition) :
    (CreateBinding s cache resourceID roleID members (some cond)).store.conditions
        = s.conditions
    ∧ (CreateBinding s cache resourceID roleID members (some cond)).result.isOk = true
    ∧ (∀ prow, s.policies.find? (fun p => p.resourceID == resourceID) = some prow →
        (CreateBinding s cache resourceID roleID members (some cond)).store.policies
          = s.policies)
    ∧ (s.policies.find? (fun p => p.resourceID == resourceID) = none →
        ∃ newRow : PolicyRow,
          (CreateBinding s cache resourceID roleID members (some cond)).store.policies
            = s.policies ++ [newRow]
          ∧ newRow.resourceID = resourceID ∧ newRow.version = 1)
    ∧ (∃ brow : BindingRow,
        (CreateBinding s cache resourceID roleID members (some cond)).store.bindings
          = s.bindings ++ [brow]
        ∧ ∃ prow2 ∈ (CreateBinding s cache resourceID roleID members (some cond)).store.policies,
            prow2.resourceID = resourceID ∧ brow.policyID = prow2.id) := by
  cases hf : s.policies.find? (fun p => p.resourceID == resourceID) with
  | some prow =>
    have hmem : prow ∈ s.policies := List.mem_of_find?_eq_some hf
    have hrid : prow.resourceID = resourceID := by
      have := List.find?_some hf
      simpa using this
    refine ⟨?_, ?_, ?_, ?_, ?_⟩
    · simp [CreateBinding, hf, bindingCreate, freshUuid]
    · simp [CreateBinding, hf, bindingCreate, freshUuid, Except.isOk, Except.toBool]
    · intro prow2 hf2
      simp [CreateBinding, hf, bindingCreate, freshUuid]
    · intro hnone
      exact absurd hnone (by simp)
    · refine ⟨{ id := s.nextUuid, policyID := prow.id, roleID := roleID,
                members := encodeMembers members }, ?_, prow, ?_, hrid, rfl⟩
      · simp [CreateBinding, hf, bindingCreate, freshUuid]
      · simp [CreateBinding, hf, bindingCreate, freshUuid, hmem]
  | none =>
    refine ⟨?_, ?_, ?_, ?_, ?_⟩
    · simp [CreateBinding, hf, bindingCreate, freshUuid]
    · simp [CreateBinding, hf, bindingCreate, freshUuid, Except.isOk, Except.toBool]
    · intro prow2 hf2
      exact absurd hf2 (by simp)
    · intro _
      refine ⟨{ id := s.nextUuid, resourceID := resourceID,
                etag := uuidString (s.nextUuid + 1), version := 1 }, ?_, rfl, rfl⟩
      simp [CreateBinding, hf, bindingCreate, freshUuid]
    · refine ⟨{ id := s.nextUuid + 2, policyID := s.nextUuid, roleID := roleID,
                members := encodeMembers members }, ?_,
        { id := s.nextUuid, resourceID := resourceID,
          etag := uuidString (s.nextUuid + 1), version := 1 }, ?_, rfl, rfl⟩
      · simp [CreateBinding, hf, bindingCreate, freshUuid]
      · simp [CreateBinding, hf, bindingCreate, freshUuid]

/-- Witness for C10 at concrete inputs: on `exStore` (which already has a
policy on the org, id 30) `CreateBinding` with a condition leaves both the
policies and the condition rows unchanged while creating the binding. -/
theorem createBinding_effects_witness :
    (CreateBinding exStore [] 1 10 ["user:bob@example.com"]
        (some { id := 0, bindingID := 0, title := "t", description := "",
                expression := "req.time < 9" })).store.conditions = exStore.conditions
    ∧ (CreateBinding exStore [] 1 10 ["user:bob@example.com"]
        (some { id := 0, bindingID := 0, title := "t", description := "",
                expression := "req.time < 9" })).store.policies = exStore.policies := by
  have h := createBinding_effects exStore [] 1 10 ["user:bob@example.com"]
    { id := 0, bindingID := 0, title := "t", description := "", expression := "req.time < 9" }
  exact ⟨h.1, h.2.2.1 { id := 30, resourceID := 1, etag := "etag-org", version := 1 } rfl⟩

/-- Claim C2: for a policy `prow` stored for `resourceID` (in a store whose
etags were all drawn from earlier uuid draws), `UpdatePolicy` succeeds iff
the caller's `readEtag` equals the policy's current etag; on success the
returned policy's etag differs from `readEtag` and its version is exactly
one more than — in particular strictly greater than — the previous version;
on a mismatch the mutation fails with the ETag-mismatch error. -/
theorem updatePolicy_etag_reflexivity (s : StoreState) (cache : CacheMap) (resourceID : Nat)
    (newBindings : List BindingRow) (readEtag : String) (prow : PolicyRow)
    (hWF : ∀ p ∈ s.policies, p.etag.length ≤ s.nextUuid)
    (hP : s.policies.find? (fun p => p.resourceID == resourceID) = some prow) :
    ((UpdatePolicy s cache resourceID newBindings readEtag).result.isOk = true ↔
      readEtag = prow.etag)
    ∧ (readEtag = prow.etag →
        ∃ pol : Policy,
          (UpdatePolicy s cache resourceID newBindings readEtag).result = .ok (some pol)
          ∧ pol.etag ≠ readEtag ∧ pol.version = prow.version + 1
          ∧ prow.version < pol.version)
    ∧ (readEtag ≠ prow.etag →
        (UpdatePolicy s cache resourceID newBindings readEtag).result =
          .error "policy has been modified, etag mismatch") := by
  by_cases he : readEtag = prow.etag
  · have hbeq : (prow.etag == readEtag) = true := by simp [he]
    have hred : (UpdatePolicy s cache resourceID newBindings readEtag).result =
        .ok (policyGetByID
          (policySave (createBindingsFor prow.id
            { s with bindings := s.bindings.filter (fun b => ¬ (b.policyID == prow.id)) }
            newBindings) prow).2 prow.id) := by
      simp [UpdatePolicy, hP, hbeq]
    set s2 := createBindingsFor prow.id
      { s with bindings := s.bindings.filter (fun b => ¬ (b.policyID == prow.id)) }
      newBindings with hs2
    have hpol2 : s2.policies = s.policies := by
      rw [hs2, createBindingsFor_policies]
    have hnu : s.nextUuid ≤ s2.nextUuid := by
      rw [hs2]
      exact createBindingsFor_nextUuid prow.id newBindings
        { s with bindings := s.bindings.filter (fun b => ¬ (b.policyID == prow.id)) }
    have hrow2 : (policySave s2 prow).1 =
        { prow with etag := uuidString s2.nextUuid, version := prow.version + 1 } := by
      simp [policySave, freshUuid]
    have hfind : (policySave s2 prow).2.policies.find?
        (fun p => p.id == prow.id) =
        some { prow with etag := uuidString s2.nextUuid, version := prow.version + 1 } := by
      have hmem : prow ∈ s.policies := List.mem_of_find?_eq_some hP
      simp only [policySave, freshUuid]
      rw [hpol2]
      exact find?_map_replace s.policies
        { prow with etag := uuidString s2.nextUuid, version := prow.version + 1 }
        ⟨prow, hmem, rfl⟩
    have hget : policyGetByID (policySave s2 prow).2 prow.id =
        some (loadPolicy (policySave s2 prow).2
          { prow with etag := uuidString s2.nextUuid, version := prow.version + 1 }) := by
      unfold policyGetByID
      rw [hfind]
      rfl
    have hetag : (loadPolicy (policySave s2 prow).2
        { prow with etag := uuidString s2.nextUuid, version := prow.version + 1 }).etag =
        uuidString s2.nextUuid := rfl
    have hne : uuidString s2.nextUuid ≠ readEtag := by
      apply uuidString_ne_of_short
      rw [he]
      exact le_trans (hWF prow (List.mem_of_find?_eq_some hP)) hnu
    refine ⟨?_, ?_, ?_⟩
    · rw [hred, hget]
      simp [he, Except.isOk, Except.toBool]
    · intro _
      refine ⟨loadPolicy (policySave s2 prow).2
        { prow with etag := uuidString s2.nextUuid, version := prow.version + 1 },
        by rw [hred, hget], ?_, rfl, ?_⟩
      · rw [hetag]
        exact hne
      · show prow.version < prow.version + 1
        omega
    · intro hcontra
      exact absurd he hcontra
  · have hbeq : (prow.etag == readEtag) = false := by
      simp [BEq.beq]
      intro hcontra
      exact he hcontra.symm
    have hred : (UpdatePolicy s cache resourceID newBindings readEtag).result =
        .error "policy has been modified, etag mismatch" := by
      simp [UpdatePolicy, hP, hbeq]
    refine ⟨?_, ?_, ?_⟩
    · rw [hred]
      simp [Except.isOk, Except.toBool, he]
    · intro hcontra
      exact absurd hcontra he
    · intro _
      exact hred

/-- Witness for C2 at concrete inputs: on `exStore`, updating with the
current etag succeeds with a fresh etag and version 2, and updating with a
stale etag fails with the ETag-mismatch error. -/
theorem updatePolicy_etag_reflexivity_witness :
    (UpdatePolicy exStore [] 1 [] "etag-org").result.isOk = true
    ∧ (∃ pol : Policy, (UpdatePolicy exStore [] 1 [] "etag-org").result = .ok (some pol)
        ∧ pol.etag ≠ "etag-org" ∧ pol.version = 2)
    ∧ (UpdatePolicy exStore [] 1 [] "stale").result =
        .error "policy has been modified, etag mismatch" := by
  have h1 := updatePolicy_etag_reflexivity exStore [] 1 [] "etag-org"
    { id := 30, resourceID := 1, etag := "etag-org", version := 1 }
    (by decide) rfl
  have h2 := updatePolicy_etag_reflexivity exStore [] 1 [] "stale"
    { id := 30, resourceID := 1, etag := "etag-org", version := 1 }
    (by decide) rfl
  refine ⟨h1.1.mpr rfl, ?_, h2.2.2 (by decide)⟩
  rcases h1.2.1 rfl with ⟨pol, hres, hne, hver, _⟩
  exact ⟨pol, hres, hne, hver⟩

/-- Claim C3: hierarchical grants are inherited downward — if `A` lies on
the parent chain of `R` (so `A` is an ancestor of `R` in the store) and
`check(principal, A, x)` returns `true` without being served a stale cached
grant for `A`, then `check(principal, R, x)` returns `true`, for any context
maps. -/
theorem checkPermission_ancestor_inheritance (s : StoreState) (cache : CacheMap)
    (principal permission : String) (ctx ctx' : Ctx) (A R : Resource)
    (ancR : List Resource)
    (hR : getResource s R.id = some R)
    (hchain : ParentChain s R.parentID ancR)
    (hlen : ancR.length ≤ s.resources.length)
    (hA : A ∈ ancR)
    (hmiss : cacheGet cache (GenerateCacheKey principal (toString A.id) permission)
      ≠ some true)
    (hallow : (CheckPermission (storeRepos s) cache principal A.id permission ctx).1.allowed
      = true) :
    (CheckPermission (storeRepos s) cache principal R.id permission ctx').1.allowed
      = true := by
  obtain ⟨l₁, l₂, hdecomp⟩ := List.append_of_mem hA
  subst hdecomp
  obtain ⟨hchainA, hgA⟩ := parentChain_suffix s l₁ hchain
  have hlen2 : l₂.length ≤ s.resources.length := by
    simp only [List.length_append, List.length_cons] at hlen
    omega
  have hancA : getAncestors s A.id = l₂ := getAncestors_eq s hgA hchainA hlen2
  have hancR : getAncestors s R.id = l₁ ++ A :: l₂ := getAncestors_eq s hR hchain hlen
  have hrA : (storeRepos s).resourceGetByID A.id = .ok (some A) := by
    simp [storeRepos, hgA]
  have haA : (storeRepos s).resourceGetAncestors A.id = .ok l₂ := by
    simp [storeRepos, hancA]
  rw [CheckPermission_eq_chain (storeRepos s) cache principal A.id permission ctx A l₂
    hmiss hrA haA] at hallow
  rw [checkChain_allowed_iff (storeRepos s) principal permission ctx _ cache _
    (fun resID _ => checkResourcePermission_storeRepos_err s principal resID permission ctx)]
    at hallow
  obtain ⟨resID, hmem, hallowed⟩ := hallow
  by_cases hcR : cacheGet cache (GenerateCacheKey principal (toString R.id) permission)
      = some true
  · simp [CheckPermission, hcR]
  · have hrR : (storeRepos s).resourceGetByID R.id = .ok (some R) := by
      simp [storeRepos, hR]
    have haR : (storeRepos s).resourceGetAncestors R.id = .ok (l₁ ++ A :: l₂) := by
      simp [storeRepos, hancR]
    rw [CheckPermission_eq_chain (storeRepos s) cache principal R.id permission ctx' R
      (l₁ ++ A :: l₂) hcR hrR haR]
    rw [checkChain_allowed_iff (storeRepos s) principal permission ctx' _ cache _
      (fun rid _ => checkResourcePermission_storeRepos_err s principal rid permission ctx')]
    refine ⟨resID, ?_, ?_⟩
    · rcases List.mem_cons.mp hmem with h | h
      · apply List.mem_cons_of_mem
        rw [h]
        exact List.mem_map_of_mem _ hA
      · apply List.mem_cons_of_mem
        rw [List.map_append]
        exact List.mem_append_right _ (by simpa using Or.inr h)
    · rw [checkResourcePermission_ctx (storeRepos s) principal resID permission ctx' ctx]
      exact hallowed

set_option maxRecDepth 8192 in
/-- Witness for C3 at the concrete store `exStore`: the grant on the org
(resource 1) is inherited by the bucket (resource 2). -/
theorem checkPermission_ancestor_inheritance_witness :
    (CheckPermission (storeRepos exStore) [] "user:alice@example.com" 2
        "storage.objects.read" []).1.allowed = true := by
  exact checkPermission_ancestor_inheritance exStore [] "user:alice@example.com"
    "storage.objects.read" [] [] exOrg exBucket [exOrg] rfl
    (ParentChain.step 1 exOrg [] rfl ParentChain.root)
    (by decide) (by decide) (by decide) (by decide)

end Iam
